import Mathlib

/-!
# ContextVM ts-sdk — shallow embedding and verification

This file embeds the core data model and operations of the ContextVM
TypeScript SDK (Nostr ↔ MCP transport bridge) as executable Lean
definitions, translated from the repository's source files:

* `src/core/utils/serializers.ts` — `mcpToNostrEvent`, `nostrEventToMcpMessage`
* `src/core/encryption.ts` — `encryptMessage`
* `src/core/constants.ts` — kinds, tags, `MAX_MESSAGE_SIZE`
* `src/core/utils/utils.ts` — `validateMessageSize`
* `src/transport/base-nostr-transport.ts` — `sendMcpMessage` (encryption choice)
* `src/transport/nostr-server-transport.ts` — sessions, request/response
  correlation, progress-token routing, inbound policy checks
* `src/transport/nostr-client-transport.ts` — pending-request tracking,
  inbound correlation, gift-wrap handling
* `src/relay/simple-relay-pool.ts` — publish semantics, reconnect and
  resubscription

The JavaScript runtime pieces the code relies on (`JSON.stringify` /
`JSON.parse`, `Promise.all`, JS `Map` and `Set`, truthiness) are modelled
explicitly and faithfully to their runtime semantics.
-/

namespace ContextVM

/-! ## JSON values

The repository serializes MCP messages with `JSON.stringify` and parses
inbound event content with `JSON.parse`.  We model JSON values as a tree
(numbers as integers) together with an executable serializer and an
executable parser for the serializer's output grammar. -/

inductive Json where
  | null : Json
  | bool : Bool → Json
  | num : Int → Json
  | str : String → Json
  | arr : List Json → Json
  | obj : List (String × Json) → Json
deriving Repr, Inhabited

/-- Decimal digit character, model of the digits used by number printing. -/
def digitChar : Nat → Char
  | 0 => '0'
  | 1 => '1'
  | 2 => '2'
  | 3 => '3'
  | 4 => '4'
  | 5 => '5'
  | 6 => '6'
  | 7 => '7'
  | 8 => '8'
  | _ => '9'

/-- Decimal digits of a natural number, most significant first. -/
def natChars (n : Nat) : List Char :=
  if n = 0 then ['0'] else (Nat.digits 10 n).reverse.map digitChar

/-- Decimal rendering of an integer. -/
def intChars (n : Int) : List Char :=
  if n < 0 then '-' :: natChars n.natAbs else natChars n.toNat

/-- JSON string escaping for one character (quote and backslash). -/
def escChar (c : Char) : List Char :=
  if c = '"' ∨ c = '\\' then ['\\', c] else [c]

/-- JSON string escaping. -/
def escStr : List Char → List Char
  | [] => []
  | c :: rest => escChar c ++ escStr rest

/-- Characters of the `null` keyword. -/
def charsNull : List Char :=
  ['n', 'u', 'l', 'l']

/-- Characters of the `true` keyword. -/
def charsTrue : List Char :=
  ['t', 'r', 'u', 'e']

/-- Characters of the `false` keyword. -/
def charsFalse : List Char :=
  ['f', 'a', 'l', 's', 'e']

mutual

/-- Serializer: character stream of a JSON value (model of `JSON.stringify`). -/
def Json.chars : Json → List Char
  | .null => charsNull
  | .bool true => charsTrue
  | .bool false => charsFalse
  | .num n => intChars n
  | .str s => '"' :: (escStr s.data ++ ['"'])
  | .arr [] => ['[', ']']
  | .arr (j :: js) => '[' :: (Json.chars j ++ (charsTail js ++ [']']))
  | .obj [] => ['{', '}']
  | .obj (f :: fs) => '{' :: (charsField f ++ (charsFieldsTail fs ++ ['}']))

/-- One serialized object field `"key":value`. -/
def charsField : String × Json → List Char
  | (k, v) => '"' :: (escStr k.data ++ ('"' :: ':' :: Json.chars v))

/-- Comma-prefixed serialized array elements after the first. -/
def charsTail : List Json → List Char
  | [] => []
  | j :: js => ',' :: (Json.chars j ++ charsTail js)

/-- Comma-prefixed serialized object fields after the first. -/
def charsFieldsTail : List (String × Json) → List Char
  | [] => []
  | f :: fs => ',' :: (charsField f ++ charsFieldsTail fs)

end

/-- Model of `JSON.stringify`, modelled on the JSON value tree. -/
def Json.stringify (j : Json) : String :=
  String.mk j.chars

/-- String-literal body parser: consumes up to the closing quote, undoing
the escaping, and returns the decoded characters plus the remainder. -/
def parseStrChars : List Char → Option (List Char × List Char)
  | [] => none
  | c :: rest =>
    if c = '"' then some ([], rest)
    else if c = '\\' then
      match rest with
      | [] => none
      | c2 :: rest2 =>
        match parseStrChars rest2 with
        | none => none
        | some (s, r) => some (c2 :: s, r)
    else
      match parseStrChars rest with
      | none => none
      | some (s, r) => some (c :: s, r)

/-- Digit-run parser with accumulator. -/
def parseDigitsAcc : List Char → Nat → Nat × List Char
  | [], acc => (acc, [])
  | c :: rest, acc =>
    if c.isDigit then parseDigitsAcc rest (acc * 10 + (c.toNat - 48))
    else (acc, c :: rest)

/-- Non-negative number parser: requires a leading digit. -/
def parseNumPos (cs : List Char) : Option (Nat × List Char) :=
  match cs with
  | [] => none
  | c :: _ =>
    if c.isDigit then some (parseDigitsAcc cs 0) else none

/-- One step of the value parser, abstracted over the parsers used for
nested values, array continuations and object continuations. -/
def parseValBody (pv : List Char → Option (Json × List Char))
    (pa : List Char → Option (List Json × List Char))
    (po : List Char → Option (List (String × Json) × List Char)) :
    List Char → Option (Json × List Char) := fun cs =>
  match cs with
  | [] => none
  | c :: rest =>
    if c = 'n' then
      match rest with
      | 'u' :: 'l' :: 'l' :: r => some (Json.null, r)
      | _ => none
    else if c = 't' then
      match rest with
      | 'r' :: 'u' :: 'e' :: r => some (Json.bool true, r)
      | _ => none
    else if c = 'f' then
      match rest with
      | 'a' :: 'l' :: 's' :: 'e' :: r => some (Json.bool false, r)
      | _ => none
    else if c = '"' then
      match parseStrChars rest with
      | some (s, r) => some (Json.str (String.mk s), r)
      | none => none
    else if c = '[' then
      match rest with
      | [] => none
      | c2 :: rest2 =>
        if c2 = ']' then some (Json.arr [], rest2)
        else
          match pv (c2 :: rest2) with
          | some (j, r) =>
            match pa r with
            | some (js, r2) => some (Json.arr (j :: js), r2)
            | none => none
          | none => none
    else if c = '{' then
      match rest with
      | [] => none
      | c2 :: rest2 =>
        if c2 = '}' then some (Json.obj [], rest2)
        else if c2 = '"' then
          match parseStrChars rest2 with
          | some (k, r1) =>
            match r1 with
            | ':' :: r2 =>
              match pv r2 with
              | some (v, r3) =>
                match po r3 with
                | some (fs, r4) => some (Json.obj ((String.mk k, v) :: fs), r4)
                | none => none
              | none => none
            | _ => none
          | none => none
        else none
    else if c = '-' then
      match parseNumPos rest with
      | some (n, r) => some (Json.num (-(n : Int)), r)
      | none => none
    else if c.isDigit then
      match parseNumPos (c :: rest) with
      | some (n, r) => some (Json.num (n : Int), r)
      | none => none
    else none

/-- One step of the array continuation parser: `,value`* `]`. -/
def parseArrRestBody (pv : List Char → Option (Json × List Char))
    (pa : List Char → Option (List Json × List Char)) :
    List Char → Option (List Json × List Char) := fun cs =>
  match cs with
  | [] => none
  | c :: rest =>
    if c = ']' then some ([], rest)
    else if c = ',' then
      match pv rest with
      | some (j, r1) =>
        match pa r1 with
        | some (js, r2) => some (j :: js, r2)
        | none => none
      | none => none
    else none

/-- One step of the object continuation parser: `,"key":value`* `}`. -/
def parseObjRestBody (pv : List Char → Option (Json × List Char))
    (po : List Char → Option (List (String × Json) × List Char)) :
    List Char → Option (List (String × Json) × List Char) := fun cs =>
  match cs with
  | [] => none
  | c :: rest =>
    if c = '}' then some ([], rest)
    else if c = ',' then
      match rest with
      | [] => none
      | c2 :: rest2 =>
        if c2 = '"' then
          match parseStrChars rest2 with
          | some (k, r1) =>
            match r1 with
            | ':' :: r2 =>
              match pv r2 with
              | some (v, r3) =>
                match po r3 with
                | some (fs, r4) => some ((String.mk k, v) :: fs, r4)
                | none => none
              | none => none
            | _ => none
          | none => none
        else none
    else none

/-- The three parsers, iterated to a depth budget. -/
def parseF : Nat →
    (List Char → Option (Json × List Char)) ×
    (List Char → Option (List Json × List Char)) ×
    (List Char → Option (List (String × Json) × List Char))
  | 0 => (fun _ => none, fun _ => none, fun _ => none)
  | fuel + 1 =>
    let P := parseF fuel
    (parseValBody P.1 P.2.1 P.2.2,
     parseArrRestBody P.1 P.2.1,
     parseObjRestBody P.1 P.2.2)

/-- Value parser with a depth budget (model of `JSON.parse` on the
serializer's output grammar). -/
def parseVal (fuel : Nat) : List Char → Option (Json × List Char) :=
  (parseF fuel).1

/-- Array continuation parser. -/
def parseArrRest (fuel : Nat) : List Char → Option (List Json × List Char) :=
  (parseF fuel).2.1

/-- Object continuation parser. -/
def parseObjRest (fuel : Nat) : List Char → Option (List (String × Json) × List Char) :=
  (parseF fuel).2.2

/-- Model of `JSON.parse`, modelled on the serializer's output grammar: succeeds
only when the whole input is consumed. -/
def Json.parse (s : String) : Option Json :=
  match parseVal (s.data.length + 1) s.data with
  | some (j, []) => some j
  | _ => none

/-! ### Depth budget sufficient to parse a serialized value -/

mutual

/-- Depth budget sufficient for `parseVal` on a serialized value. -/
def Fj : Json → Nat
  | .null => 1
  | .bool _ => 1
  | .num _ => 1
  | .str _ => 1
  | .arr [] => 1
  | .arr (j :: js) => 2 + Fj j + FjL js
  | .obj [] => 1
  | .obj (f :: fs) => 2 + Fj f.2 + FjF fs

/-- Depth budget contribution of array elements after the first. -/
def FjL : List Json → Nat
  | [] => 0
  | j :: js => 1 + Fj j + FjL js

/-- Depth budget contribution of object fields after the first. -/
def FjF : List (String × Json) → Nat
  | [] => 0
  | f :: fs => 1 + Fj f.2 + FjF fs

end

/-- True when the input does not continue with a decimal digit (used to
delimit serialized numbers). -/
def headNotDigit : List Char → Bool
  | [] => true
  | c :: _ => !c.isDigit

/-! ## Constants (`src/core/constants.ts`) -/

def CTXVM_MESSAGES_KIND : Nat := 25910
def GIFT_WRAP_KIND : Nat := 1059
def SERVER_ANNOUNCEMENT_KIND : Nat := 11316
def TOOLS_LIST_KIND : Nat := 11317
def RESOURCES_LIST_KIND : Nat := 11318
def RESOURCETEMPLATES_LIST_KIND : Nat := 11319
def PROMPTS_LIST_KIND : Nat := 11320

/-- Maximum allowed message size in bytes (1MB). -/
def MAX_MESSAGE_SIZE : Nat := 1024 * 1024

def NOSTR_TAGS_PUBKEY : String := "p"
def NOSTR_TAGS_EVENT_ID : String := "e"
def NOSTR_TAGS_NAME : String := "name"
def NOSTR_TAGS_ABOUT : String := "about"
def NOSTR_TAGS_WEBSITE : String := "website"
def NOSTR_TAGS_PICTURE : String := "picture"
def NOSTR_TAGS_SUPPORT_ENCRYPTION : String := "support_encryption"

/-! ## Events and the message codec (`src/core/utils/serializers.ts`) -/

/-- Unsigned Nostr event, as produced by `mcpToNostrEvent`. -/
structure UnsignedEvent where
  pubkey : String
  kind : Nat
  tags : List (List String)
  content : String
  created_at : Nat
deriving Repr, DecidableEq

/-- Signed Nostr event (id and signature filled in by the signer). -/
structure NostrEvent extends UnsignedEvent where
  id : String
  sig : String
deriving Repr, DecidableEq

/-- Attach an id and signature to an unsigned event (the hashing and
Schnorr signing performed by the signer are treated as oracles). -/
def finalizeEventWith (ue : UnsignedEvent) (id sig : String) : NostrEvent :=
  { toUnsignedEvent := ue, id := id, sig := sig }

/-- Model of `mcpToNostrEvent`: serializes an MCP message into a Nostr event
object.  `Date.now()` is passed explicitly as `now` (Unix seconds). -/
def mcpToNostrEvent (mcpMessage : Json) (pubkey : String) (kind : Nat)
    (tags : List (List String)) (now : Nat) : UnsignedEvent :=
  { pubkey := pubkey
    kind := kind
    tags := tags
    content := Json.stringify mcpMessage
    created_at := now }

/-- Model of `nostrEventToMcpMessage`: deserializes a Nostr event into an MCP
message, `none` when the content is not valid JSON. -/
def nostrEventToMcpMessage (event : NostrEvent) : Option Json :=
  Json.parse event.content

/-! ## Message size validation (`src/core/utils/utils.ts`) -/

/-- UTF-8 byte length of a character list. -/
def utf8LenAux : List Char → Nat
  | [] => 0
  | c :: rest => c.utf8Size + utf8LenAux rest

/-- UTF-8 byte length of a string (model of `new Blob([message]).size`). -/
def utf8Len (s : String) : Nat :=
  utf8LenAux s.data

/-- Model of `validateMessageSize`: true when the serialized message is within the
1 MiB bound.  (Defined in the repository's utils; never invoked by any
transport code path.) -/
def validateMessageSize (message : String) : Bool :=
  decide (utf8Len message ≤ MAX_MESSAGE_SIZE)

/-! ## Gift-wrap encryption (`src/core/encryption.ts`) -/

/-- A kind-1059 gift wrap event as built by `encryptMessage`.  The NIP-44
ciphertext, the freshly generated ephemeral public key, and the wall
clock are oracles passed as arguments; everything else is computed
exactly as in the source. -/
structure GiftWrapEvent where
  kind : Nat
  content : String
  tags : List (List String)
  created_at : Nat
  pubkey : String
deriving Repr, DecidableEq

/-- Model of `encryptMessage`: wraps a serialized signed event for a recipient.
`nowMs` is `Date.now()` in milliseconds; the event timestamp is
`Math.floor(Date.now() / 1000)`. -/
def encryptMessage (message recipientPublicKey : String)
    (ephemeralPubkey : String) (encrypt : String → String) (nowMs : Nat) :
    GiftWrapEvent :=
  { kind := GIFT_WRAP_KIND
    content := encrypt message
    tags := [[NOSTR_TAGS_PUBKEY, recipientPublicKey]]
    created_at := nowMs / 1000
    pubkey := ephemeralPubkey }

/-! ## JSON-RPC messages -/

/-- A JSON-RPC id: string or number. -/
inductive RequestId where
  | str (s : String)
  | num (n : Int)
deriving Repr, DecidableEq, Inhabited

/-- The shapes distinguished by `isJSONRPCRequest` / `isJSONRPCNotification`
/ `isJSONRPCResponse` / `isJSONRPCError` in the SDK. -/
inductive McpMessage where
  | request (id : RequestId) (method : String) (params : Option Json)
  | notification (method : String) (params : Option Json)
  | response (id : RequestId) (result : Json)
  | rpcError (id : RequestId) (err : Json)
deriving Repr, Inhabited

/-- A JSON-RPC request as a record (mirrors the TypeScript object whose
`id` field the server transport overwrites). -/
structure JSONRPCRequest where
  id : RequestId
  method : String
  params : Option Json
deriving Repr, Inhabited

/-- Response payload: `result` (JSONRPCResponse) or `error` (JSONRPCError). -/
inductive RespPayload where
  | result (r : Json)
  | rpcError (e : Json)
deriving Repr, Inhabited

/-- Rebuild the outbound response message from an id and a payload. -/
def respMessage (id : RequestId) (payload : RespPayload) : McpMessage :=
  match payload with
  | .result r => McpMessage.response id r
  | .rpcError e => McpMessage.rpcError id e

def isNotificationMessage : McpMessage → Bool
  | .notification _ _ => true
  | _ => false

/-! ## JavaScript runtime helpers (truthiness, `String()`, `Map`, `Set`) -/

/-- JavaScript truthiness of a JSON value (`if (x)`).  `0` and the empty
string are falsy. -/
def jsTruthy : Json → Bool
  | .null => false
  | .bool b => b
  | .num n => decide (n ≠ 0)
  | .str s => decide (s ≠ "")
  | .arr _ => true
  | .obj _ => true

/-- JavaScript `String(x)` for the values a progress token can be (the MCP
schema allows strings and numbers; the container cases follow JS object
conversion). -/
def jsToString : Json → String
  | .str s => s
  | .num n => toString n
  | .bool true => "true"
  | .bool false => "false"
  | .null => "null"
  | .arr _ => ""
  | .obj _ => "[object Object]"

/-- The string a stored correlation value contributes to a tag (ids are
stored as strings; the `as string` cast in the source never converts). -/
def ridToString : RequestId → String
  | .str s => s
  | .num n => toString n

/-- JS `Map.prototype.get` on an insertion-ordered association list. -/
def mapGet {α : Type} : List (String × α) → String → Option α
  | [], _ => none
  | p :: rest, k => if p.1 = k then some p.2 else mapGet rest k

/-- JS `Map.prototype.set`: replaces in place or appends. -/
def mapSet {α : Type} : List (String × α) → String → α → List (String × α)
  | [], k, v => [(k, v)]
  | p :: rest, k, v => if p.1 = k then (k, v) :: rest else p :: mapSet rest k v

/-- JS `Map.prototype.delete` (keys are unique, so removing every match
coincides with removing the entry). -/
def mapDelete {α : Type} : List (String × α) → String → List (String × α)
  | [], _ => []
  | p :: rest, k => if p.1 = k then mapDelete rest k else p :: mapDelete rest k

/-- JS `Set.prototype.add` on an insertion-ordered list. -/
def setAdd (s : List String) (x : String) : List String :=
  if x ∈ s then s else s ++ [x]

/-- JS `Set.prototype.delete`. -/
def setDelete (s : List String) (x : String) : List String :=
  s.filter (fun y => decide (y ≠ x))

/-- Read a field of a JSON object (optional chaining `x?.f` semantics:
anything other than an object with the field yields `undefined`). -/
def getField : Json → String → Option Json
  | .obj fs, k => (fs.find? (fun p => decide (p.1 = k))).map (fun p => p.2)
  | _, _ => none

/-- Model of `params?._meta?.progressToken`. -/
def progressTokenOf (params : Option Json) : Option Json :=
  match params with
  | none => none
  | some p =>
    match getField p "_meta" with
    | none => none
    | some m => getField m "progressToken"

/-! ## Encryption mode and the base transport send helper
(`src/core/interfaces.ts`, `src/transport/base-nostr-transport.ts`) -/

inductive EncryptionMode where
  | optional
  | required
  | disabled
deriving Repr, DecidableEq, Inhabited

/-- Kinds published in clear by `sendMcpMessage` unless forced. -/
def unencryptedKinds : List Nat :=
  [SERVER_ANNOUNCEMENT_KIND, TOOLS_LIST_KIND, RESOURCES_LIST_KIND,
   RESOURCETEMPLATES_LIST_KIND, PROMPTS_LIST_KIND]

/-- The encryption decision inside `sendMcpMessage`:
`(!unencryptedKinds.includes(kind) || forceEncryption) && mode !== DISABLED`. -/
def shouldEncrypt (mode : EncryptionMode) (kind : Nat) (forceEncryption : Bool) : Bool :=
  (!(unencryptedKinds.contains kind) || forceEncryption)
    && decide (mode ≠ EncryptionMode.disabled)

/-- The observable effect of one `sendMcpMessage` call: the recipient,
kind, tags and message handed to the codec, and whether the resulting
signed event was gift-wrapped before publication. -/
structure OutboundPublish where
  recipient : String
  kind : Nat
  tags : List (List String)
  message : McpMessage
  encrypted : Bool
deriving Repr

/-- Model of `sendMcpMessage` of the transport base class. -/
def sendMcpMessage (mode : EncryptionMode) (message : McpMessage)
    (recipientPublicKey : String) (kind : Nat) (tags : List (List String))
    (forceEncryption : Bool) : OutboundPublish :=
  { recipient := recipientPublicKey
    kind := kind
    tags := tags
    message := message
    encrypted := shouldEncrypt mode kind forceEncryption }

/-- Model of `createRecipientTags`. -/
def createRecipientTags (recipientPubkey : String) : List (List String) :=
  [[NOSTR_TAGS_PUBKEY, recipientPubkey]]

/-- Model of `createResponseTags`. -/
def createResponseTags (recipientPubkey originalEventId : String) : List (List String) :=
  [[NOSTR_TAGS_PUBKEY, recipientPubkey], [NOSTR_TAGS_EVENT_ID, originalEventId]]

/-! ## Server transport (`src/transport/nostr-server-transport.ts`) -/

/-- Per-client session state. -/
structure ClientSession where
  isInitialized : Bool
  isEncrypted : Bool
  lastActivity : Int
  pendingRequests : List (String × RequestId)
deriving Repr, DecidableEq

/-- Server metadata used for common tags. -/
structure ServerInfo where
  name : Option String
  about : Option String
  website : Option String
  picture : Option String
deriving Repr, DecidableEq

/-- State of a `NostrServerTransport`. -/
structure ServerState where
  clientSessions : List (String × ClientSession)
  encryptionMode : EncryptionMode
  serverInfo : ServerInfo
  allowedPublicKeys : Option (List String)
deriving Repr

/-- Model of `generateCommonTags`. -/
def generateCommonTags (info : ServerInfo) (mode : EncryptionMode) : List (List String) :=
  (match info.name with | some n => [[NOSTR_TAGS_NAME, n]] | none => [])
    ++ (match info.about with | some a => [[NOSTR_TAGS_ABOUT, a]] | none => [])
    ++ (match info.website with | some w => [[NOSTR_TAGS_WEBSITE, w]] | none => [])
    ++ (match info.picture with | some p => [[NOSTR_TAGS_PICTURE, p]] | none => [])
    ++ (if mode = EncryptionMode.disabled then [] else [[NOSTR_TAGS_SUPPORT_ENCRYPTION]])

/-- Model of `getOrCreateClientSession` (the returned session is written back by
the caller; the map write is part of `authorizeAndProcessEvent`). -/
def getOrCreateClientSession (st : ServerState) (clientPubkey : String)
    (now : Int) (isEncrypted : Bool) : ClientSession :=
  match mapGet st.clientSessions clientPubkey with
  | some s => { s with isEncrypted := isEncrypted }
  | none =>
    { isInitialized := false
      isEncrypted := isEncrypted
      lastActivity := now
      pendingRequests := [] }

/-- Model of `handleIncomingRequest`: saves the original JSON-RPC id, overwrites
the request id with the Nostr event id, and records a truthy progress
token. -/
def handleIncomingRequest (session : ClientSession) (eventId : String)
    (request : JSONRPCRequest) : ClientSession × JSONRPCRequest :=
  let originalRequestId := request.id
  let delivered := { request with id := RequestId.str eventId }
  let pending1 := mapSet session.pendingRequests eventId originalRequestId
  let pending2 :=
    match progressTokenOf request.params with
    | some tok =>
      if jsTruthy tok then mapSet pending1 (jsToString tok) (RequestId.str eventId)
      else pending1
    | none => pending1
  ({ session with pendingRequests := pending2 }, delivered)

/-- Model of `handleIncomingNotification`: marks the session initialized on
`notifications/initialized`. -/
def handleIncomingNotification (session : ClientSession) (method : String) : ClientSession :=
  if method = "notifications/initialized" then { session with isInitialized := true }
  else session

/-- Model of `this.allowedPublicKeys?.length && !includes(pubkey)`. -/
def blockedByAllowlist (allowed : Option (List String)) (pubkey : String) : Bool :=
  match allowed with
  | some l => !l.isEmpty && !(l.contains pubkey)
  | none => false

/-- Decoded view of a (possibly inner) Nostr event as the transports see
it: `content` is the result of `convertNostrEventToMcpMessage` (`none`
for malformed JSON). -/
structure EventView where
  id : String
  pubkey : String
  tags : List (List String)
  content : Option McpMessage
deriving Repr, Inhabited

/-- An inbound event: either a cleartext kind-25910 event, or a kind-1059
gift wrap whose successful decryption yields the given inner event. -/
inductive InboundEvent where
  | clear (event : EventView)
  | wrapped (inner : EventView)
deriving Repr, Inhabited

/-- Model of `authorizeAndProcessEvent`: allowlist check, decode check, session
update, and dispatch; returns the new state and the message delivered to
the local MCP server via `onmessage` (if any). -/
def authorizeAndProcessEvent (st : ServerState) (eventPubkey eventId : String)
    (content : Option McpMessage) (isEncrypted : Bool) (now : Int) :
    ServerState × Option McpMessage :=
  if blockedByAllowlist st.allowedPublicKeys eventPubkey then (st, none)
  else
    match content with
    | none => (st, none)
    | some msg =>
      let session0 := getOrCreateClientSession st eventPubkey now isEncrypted
      let session1 := { session0 with lastActivity := now }
      match msg with
      | .request id method params =>
        let pr := handleIncomingRequest session1 eventId ⟨id, method, params⟩
        ({ st with clientSessions := mapSet st.clientSessions eventPubkey pr.1 },
         some (McpMessage.request pr.2.id pr.2.method pr.2.params))
      | .notification method params =>
        let session2 := handleIncomingNotification session1 method
        ({ st with clientSessions := mapSet st.clientSessions eventPubkey session2 },
         some (McpMessage.notification method params))
      | other =>
        ({ st with clientSessions := mapSet st.clientSessions eventPubkey session1 },
         some other)

/-- Model of `processIncomingEvent`: encryption-policy gate, then authorization and
processing.  A dropped event leaves the state unchanged and delivers
nothing. -/
def processIncomingEvent (st : ServerState) (inb : InboundEvent) (now : Int) :
    ServerState × Option McpMessage :=
  match inb with
  | .wrapped inner =>
    if st.encryptionMode = EncryptionMode.disabled then (st, none)
    else authorizeAndProcessEvent st inner.pubkey inner.id inner.content true now
  | .clear ev =>
    if st.encryptionMode = EncryptionMode.required then (st, none)
    else authorizeAndProcessEvent st ev.pubkey ev.id ev.content false now

/-- Model of `InitializeResultSchema.safeParse(r).success` (external MCP
SDK zod schema: `protocolVersion` string, `capabilities` object,
`serverInfo` with `name` and `version` strings). -/
def isInitializeResult (j : Json) : Bool :=
  (match getField j "protocolVersion" with | some (.str _) => true | _ => false)
    && (match getField j "capabilities" with | some (.obj _) => true | _ => false)
    && (match getField j "serverInfo" with
        | some si =>
          (match getField si "name" with | some (.str _) => true | _ => false)
            && (match getField si "version" with | some (.str _) => true | _ => false)
        | _ => false)

/-- First session whose `pendingRequests` contains the key, with the
stored original id (the `for … of entries()` scan in `handleResponse`). -/
def findSessionWithPending : List (String × ClientSession) → String →
    Option (String × RequestId)
  | [], _ => none
  | (c, s) :: rest, key =>
    match mapGet s.pendingRequests key with
    | some oid => some (c, oid)
    | none => findSessionWithPending rest key

/-- First key mapped to the given value (the progress-token cleanup scan). -/
def findKeyWithValue : List (String × RequestId) → RequestId → Option String
  | [], _ => none
  | (k, v) :: rest, target =>
    if v = target then some k else findKeyWithValue rest target

/-- Result of the server transport's `send` for a response message. -/
inductive ServerSendResult where
  | sent (pub : OutboundPublish)
  | announcement
  | sendError (msg : String)
deriving Repr

/-- Model of `handleResponse`: announcement special case, session scan by the
event id stored in the response id, id restoration, tag construction,
send, and pending/progress cleanup. -/
def handleResponse (st : ServerState) (respId : RequestId) (payload : RespPayload) :
    ServerState × ServerSendResult :=
  if respId = RequestId.str "announcement" then (st, ServerSendResult.announcement)
  else
    match respId with
    | .num _ =>
      -- `pendingRequests.get` with a numeric id never matches the string keys.
      (st, ServerSendResult.sendError "No pending request found")
    | .str nostrEventId =>
      match findSessionWithPending st.clientSessions nostrEventId with
      | none => (st, ServerSendResult.sendError "No pending request found")
      | some (targetClientPubkey, originalRequestId) =>
        if targetClientPubkey = "" then
          -- `if (!targetClientPubkey …)`: the empty string is falsy.
          (st, ServerSendResult.sendError "No pending request found")
        else
          match mapGet st.clientSessions targetClientPubkey with
          | none => (st, ServerSendResult.sendError "No session found")
          | some session =>
            let tags0 := createResponseTags targetClientPubkey nostrEventId
            let isInitResult :=
              match payload with
              | .result r => isInitializeResult r
              | .rpcError _ => false
            let tags :=
              if isInitResult && session.isEncrypted then
                tags0 ++ generateCommonTags st.serverInfo st.encryptionMode
              else tags0
            let pub := sendMcpMessage st.encryptionMode
              (respMessage originalRequestId payload) targetClientPubkey
              CTXVM_MESSAGES_KIND tags session.isEncrypted
            let pending1 := mapDelete session.pendingRequests nostrEventId
            let pending2 :=
              match findKeyWithValue pending1 (RequestId.str nostrEventId) with
              | some tk => mapDelete pending1 tk
              | none => pending1
            let session2 := { session with pendingRequests := pending2 }
            let sessions2 := mapSet st.clientSessions targetClientPubkey session2
            ({ st with clientSessions := sessions2 }, ServerSendResult.sent pub)

/-- First session tracking the given progress token (the scan in
`handleNotification`). -/
def findSessionForToken : List (String × ClientSession) → String →
    Option (String × ClientSession × RequestId)
  | [], _ => none
  | (c, s) :: rest, token =>
    match mapGet s.pendingRequests token with
    | some v => some (c, s, v)
    | none => findSessionForToken rest token

/-- Model of `sendNotification` of the server transport: `none` models the throw
when no session exists for the client. -/
def sendNotificationTo (st : ServerState) (clientPubkey : String)
    (notif : McpMessage) (correlatedEventId : Option String) : Option OutboundPublish :=
  match mapGet st.clientSessions clientPubkey with
  | none => none
  | some session =>
    let tags := createRecipientTags clientPubkey ++
      (match correlatedEventId with
       | some e => [[NOSTR_TAGS_EVENT_ID, e]]
       | none => [])
    some (sendMcpMessage st.encryptionMode notif clientPubkey
      CTXVM_MESSAGES_KIND tags session.isEncrypted)

/-- Result of the server transport's `send` for a notification. -/
inductive NotifyOutcome where
  | progress (pub : OutboundPublish)
  | broadcast (pubs : List OutboundPublish)
  | progressError (token : String)
  | noSession (clientPubkey : String)
deriving Repr

/-- The broadcast branch: every initialized session receives the
notification with its own encryption state. -/
def broadcastNotification (st : ServerState) (method : String)
    (params : Option Json) : List OutboundPublish :=
  st.clientSessions.filterMap (fun p =>
    if p.2.isInitialized then
      sendNotificationTo st p.1 (McpMessage.notification method params) none
    else none)

/-- Model of `handleNotification`: progress notifications with a truthy token are
routed to the single session tracking the token; everything else is
broadcast to initialized sessions. -/
def handleNotification (st : ServerState) (method : String)
    (params : Option Json) : NotifyOutcome :=
  match progressTokenOf params with
  | some tok =>
    if method = "notifications/progress" ∧ jsTruthy tok = true then
      let token := jsToString tok
      match findSessionForToken st.clientSessions token with
      | some (c, _, v) =>
        match sendNotificationTo st c (McpMessage.notification method params)
            (some (ridToString v)) with
        | some pub => NotifyOutcome.progress pub
        | none => NotifyOutcome.noSession c
      | none => NotifyOutcome.progressError (jsToString tok)
    else NotifyOutcome.broadcast (broadcastNotification st method params)
  | none => NotifyOutcome.broadcast (broadcastNotification st method params)

/-! ## Client transport (`src/transport/nostr-client-transport.ts`) -/

/-- State of a `NostrClientTransport`. -/
structure ClientState where
  serverPubkey : String
  encryptionMode : EncryptionMode
  pendingRequestIds : List String
deriving Repr, DecidableEq

/-- Model of `getNostrEventTag` from the serializers module. -/
def getNostrEventTag (tags : List (List String)) (tagName : String) : Option String :=
  match tags.find? (fun t => decide (t.head? = some tagName)) with
  | some t => t[1]?
  | none => none

/-- Model of `send`: publish, then insert the resulting event id into
`pendingRequestIds` (`if (eventId)` is a truthiness check, so the empty
string would be skipped).  The message itself plays no role in the
tracking. -/
def clientSend (st : ClientState) (message : McpMessage) (eventId : String) : ClientState :=
  match message with
  | _ =>
    if eventId = "" then st
    else { st with pendingRequestIds := setAdd st.pendingRequestIds eventId }

/-- Observable outcome of processing one inbound event on the client. -/
inductive ClientOutcome where
  | delivered (msg : Option McpMessage)
  | droppedUnknownE (eventId : String)
  | deliveredNotification (msg : McpMessage)
  | notifError
deriving Repr

/-- Model of `handleRegularMessage`: correlate by the `e` tag against
`pendingRequestIds`, else treat as a notification. -/
def handleRegularMessage (st : ClientState) (event : EventView) :
    ClientState × ClientOutcome :=
  let notifPath : ClientState × ClientOutcome :=
    match event.content with
    | some msg =>
      if isNotificationMessage msg then (st, ClientOutcome.deliveredNotification msg)
      else (st, ClientOutcome.notifError)
    | none => (st, ClientOutcome.notifError)
  match getNostrEventTag event.tags "e" with
  | some e =>
    if e = "" then notifPath
    else if e ∈ st.pendingRequestIds then
      ({ st with pendingRequestIds := setDelete st.pendingRequestIds e },
       ClientOutcome.delivered event.content)
    else (st, ClientOutcome.droppedUnknownE e)
  | none => notifPath

/-- The client's inbound dispatch: a kind-1059 event is decrypted and its
inner event processed by `handleRegularMessage`; there is no encryption
mode check on this path. -/
def processClientIncoming (st : ClientState) (inb : InboundEvent) :
    ClientState × ClientOutcome :=
  match inb with
  | .wrapped inner => handleRegularMessage st inner
  | .clear ev => handleRegularMessage st ev

/-- Model of `close()`: disconnects; `pendingRequestIds` is left untouched. -/
def clientClose (st : ClientState) : ClientState :=
  st

/-- Process a sequence of inbound events. -/
def processClientTrace (st : ClientState) : List InboundEvent → ClientState
  | [] => st
  | inb :: rest => processClientTrace (processClientIncoming st inb).1 rest

/-- The `e`-tag a given inbound event correlates on (of the inner event
for gift wraps). -/
def effectiveETag : InboundEvent → Option String
  | .clear ev => getNostrEventTag ev.tags "e"
  | .wrapped inner => getNostrEventTag inner.tags "e"

/-! ## Relay pool (`src/relay/simple-relay-pool.ts`) -/

/-- A subscription filter (the fields the pool round-trips). -/
structure Filter where
  kinds : List Nat
  pTags : List String
  since : Option Nat
deriving Repr, DecidableEq

/-- An active subscription: its filters and its current closer handle
(modelled as a generation counter; `resubscribeAll` replaces the
closer). -/
structure Subscription where
  filters : List Filter
  closerGen : Nat
deriving Repr, DecidableEq

/-- Per-relay reconnection state. -/
structure RelayState where
  reconnectInterval : Nat
  retryCount : Nat
  isReconnecting : Bool
deriving Repr, DecidableEq

/-- State of a `SimpleRelayPool`. -/
structure PoolState where
  relayStates : List (String × RelayState)
  subscriptions : List Subscription
deriving Repr, DecidableEq

def maxRetries : Nat := 5

/-- Model of `resubscribeAll`: closes and re-issues every stored subscription with
its stored filters. -/
def resubscribeAll (subs : List Subscription) : List Subscription :=
  subs.map (fun sub => { sub with closerGen := sub.closerGen + 1 })

/-- Model of `handleDisconnectedRelay`: guarded exponential-backoff reconnect;
`connectOk` is the outcome of `pool.ensureRelay`. -/
def handleDisconnectedRelay (st : PoolState) (url : String) (connectOk : Bool) : PoolState :=
  match mapGet st.relayStates url with
  | none => st
  | some rs =>
    if rs.isReconnecting then st
    else if maxRetries ≤ rs.retryCount then st
    else if connectOk then
      { st with
        relayStates := mapSet st.relayStates url
          { reconnectInterval := 1000, retryCount := 0, isReconnecting := false }
        subscriptions := resubscribeAll st.subscriptions }
    else
      { st with
        relayStates := mapSet st.relayStates url
          { reconnectInterval := min (rs.reconnectInterval * 2) 30000
            retryCount := rs.retryCount + 1
            isReconnecting := false } }

/-- JS `Promise.all` over already-started per-relay publish promises:
fulfils when all fulfil, rejects with the first rejection. -/
def promiseAll : List (Except String Unit) → Except String Unit
  | [] => Except.ok ()
  | Except.ok _ :: rest => promiseAll rest
  | Except.error e :: _ => Except.error e

/-- Model of `SimpleRelayPool.publish`: `await Promise.all(pool.publish(urls, event))`,
given the per-relay outcomes. -/
def poolPublish (relayResults : List (Except String Unit)) : Except String Unit :=
  promiseAll relayResults

/-! # Theorems

## JSON codec round-trip -/

theorem Fj_pos (j : Json) : 1 ≤ Fj j := by
  match j with
  | .null | .bool _ | .num _ | .str _ => simp [Fj]
  | .arr [] | .obj [] => simp [Fj]
  | .arr (j :: js) => simp [Fj]; omega
  | .obj (f :: fs) => simp [Fj]; omega

theorem digitChar_isDigit : ∀ d, d < 10 → (digitChar d).isDigit = true := by decide

theorem digitChar_toNat : ∀ d, d < 10 → (digitChar d).toNat - 48 = d := by decide

theorem digitChar_ne : ∀ d, d < 10 →
    digitChar d ≠ 'n' ∧ digitChar d ≠ 't' ∧ digitChar d ≠ 'f' ∧
    digitChar d ≠ '"' ∧ digitChar d ≠ '[' ∧ digitChar d ≠ '{' ∧
    digitChar d ≠ '-' ∧ digitChar d ≠ ']' ∧ digitChar d ≠ '}' := by decide

theorem natChars_ne_nil (n : Nat) : natChars n ≠ [] := by
  unfold natChars
  split
  · simp
  · next h =>
    simp only [ne_eq, List.map_eq_nil_iff, List.reverse_eq_nil_iff]
    exact Nat.digits_ne_nil_iff_ne_zero.mpr h

theorem intChars_ne_nil (n : Int) : intChars n ≠ [] := by
  unfold intChars
  split
  · simp
  · exact natChars_ne_nil _

theorem parseDigitsAcc_append (ds : List Nat) (rest : List Char) (acc : Nat)
    (hds : ∀ d ∈ ds, d < 10) (hrest : headNotDigit rest = true) :
    parseDigitsAcc (ds.map digitChar ++ rest) acc =
      (ds.foldl (fun a d => a * 10 + d) acc, rest) := by
  induction ds generalizing acc with
  | nil =>
    simp only [List.map_nil, List.nil_append, List.foldl_nil]
    match rest with
    | [] => rfl
    | c :: t =>
      simp only [headNotDigit, Bool.not_eq_true'] at hrest
      simp [parseDigitsAcc, hrest]
  | cons d ds ih =>
    have hd : d < 10 := hds d (by simp)
    simp only [List.map_cons, List.cons_append, List.foldl_cons]
    rw [parseDigitsAcc, if_pos (digitChar_isDigit d hd), digitChar_toNat d hd]
    exact ih _ (fun x hx => hds x (by simp [hx]))

theorem foldl_reverse_ofDigits (L : List Nat) :
    (L.reverse).foldl (fun a d => a * 10 + d) 0 = Nat.ofDigits 10 L := by
  induction L with
  | nil => simp [Nat.ofDigits_nil]
  | cons d L ih =>
    simp only [List.reverse_cons, List.foldl_append, List.foldl_cons,
      List.foldl_nil, ih, Nat.ofDigits_cons]
    ring

theorem parseNumPos_natChars (n : Nat) (rest : List Char)
    (hrest : headNotDigit rest = true) :
    parseNumPos (natChars n ++ rest) = some (n, rest) := by
  have key : ∃ ds : List Nat, natChars n = ds.map digitChar ∧ ds ≠ [] ∧
      (∀ d ∈ ds, d < 10) ∧ ds.foldl (fun a d => a * 10 + d) 0 = n := by
    by_cases h : n = 0
    · exact ⟨[0], by simp [natChars, h, digitChar], by simp, by simp, by simp [h]⟩
    · refine ⟨(Nat.digits 10 n).reverse, by simp [natChars, h], ?_, ?_, ?_⟩
      · simp only [ne_eq, List.reverse_eq_nil_iff]
        exact Nat.digits_ne_nil_iff_ne_zero.mpr h
      · intro d hd
        exact Nat.digits_lt_base (by norm_num) (List.mem_reverse.mp hd)
      · rw [foldl_reverse_ofDigits, Nat.ofDigits_digits]
  obtain ⟨ds, hmap, hne, hlt, hfold⟩ := key
  match ds, hne with
  | d :: ds, _ =>
    have hd : d < 10 := hlt d (by simp)
    rw [hmap]
    simp only [List.map_cons, List.cons_append]
    rw [parseNumPos, if_pos (digitChar_isDigit d hd)]
    rw [show digitChar d :: (ds.map digitChar ++ rest) =
      ((d :: ds).map digitChar) ++ rest by simp]
    rw [parseDigitsAcc_append _ _ _ hlt hrest, hfold]

theorem parseStrChars_escStr (cs : List Char) (rest : List Char) :
    parseStrChars (escStr cs ++ ('"' :: rest)) = some (cs, rest) := by
  induction cs with
  | nil =>
    simp only [escStr, List.nil_append]
    rw [parseStrChars.eq_def]
    simp
  | cons c cs ih =>
    by_cases hc : c = '"' ∨ c = '\\'
    · rcases hc with hc | hc <;> subst hc <;>
        (simp only [escStr, escChar, List.cons_append, List.append_assoc]
         rw [parseStrChars.eq_def]
         simp [ih])
    · push_neg at hc
      simp only [escStr, escChar, hc.1, hc.2, or_self, if_neg, ite_false,
        List.cons_append, List.singleton_append]
      rw [parseStrChars.eq_def]
      simp [hc.1, hc.2, ih]

theorem chars_head_ne_rbrack (j : Json) (c : Char) (cs0 : List Char)
    (h : Json.chars j = c :: cs0) : c ≠ ']' := by
  match j with
  | .null => rw [Json.chars, charsNull] at h; cases h; decide
  | .bool true => rw [Json.chars, charsTrue] at h; cases h; decide
  | .bool false => rw [Json.chars, charsFalse] at h; cases h; decide
  | .str s => rw [Json.chars] at h; cases h; decide
  | .arr [] => rw [Json.chars] at h; cases h; decide
  | .arr (x :: xs) => rw [Json.chars] at h; cases h; decide
  | .obj [] => rw [Json.chars] at h; cases h; decide
  | .obj (f :: fs) => rw [Json.chars] at h; cases h; decide
  | .num n =>
    rw [Json.chars] at h
    unfold intChars at h
    split at h
    · cases h; decide
    · have key : ∃ ds : List Nat, natChars n.toNat = ds.map digitChar ∧
          (∀ d ∈ ds, d < 10) := by
        by_cases h0 : n.toNat = 0
        · exact ⟨[0], by simp [natChars, h0, digitChar], by simp⟩
        · refine ⟨(Nat.digits 10 n.toNat).reverse, by simp [natChars, h0], ?_⟩
          intro d hd
          exact Nat.digits_lt_base (by norm_num) (List.mem_reverse.mp hd)
      obtain ⟨ds, hmap, hlt⟩ := key
      rw [hmap] at h
      match ds, h with
      | d :: ds, h =>
        simp only [List.map_cons, List.cons.injEq] at h
        have := (digitChar_ne d (hlt d (by simp))).2.2.2.2.2.2.2.1
        rw [← h.1]
        exact this

theorem headNotDigit_charsTail (js : List Json) (rest : List Char) :
    headNotDigit (charsTail js ++ (']' :: rest)) = true := by
  cases js with
  | nil => rfl
  | cons j js => rfl

theorem headNotDigit_charsFieldsTail (fs : List (String × Json)) (rest : List Char) :
    headNotDigit (charsFieldsTail fs ++ ('}' :: rest)) = true := by
  cases fs with
  | nil => rfl
  | cons f fs => rfl

theorem chars_ne_nil (j : Json) : Json.chars j ≠ [] := by
  match j with
  | .null => simp [Json.chars, charsNull]
  | .bool true => simp [Json.chars, charsTrue]
  | .bool false => simp [Json.chars, charsFalse]
  | .str s => simp [Json.chars]
  | .arr [] => simp [Json.chars]
  | .obj [] => simp [Json.chars]
  | .arr (x :: xs) => simp [Json.chars]
  | .obj (f :: fs) => simp [Json.chars]
  | .num n => rw [Json.chars]; exact intChars_ne_nil n

theorem natChars_decomp (m : Nat) : ∃ ds : List Nat,
    natChars m = ds.map digitChar ∧ ds ≠ [] ∧ (∀ d ∈ ds, d < 10) ∧
    ds.foldl (fun a d => a * 10 + d) 0 = m := by
  by_cases h : m = 0
  · exact ⟨[0], by simp [natChars, h, digitChar], by simp, by simp, by simp [h]⟩
  · refine ⟨(Nat.digits 10 m).reverse, by simp [natChars, h], ?_, ?_, ?_⟩
    · simp only [ne_eq, List.reverse_eq_nil_iff]
      exact Nat.digits_ne_nil_iff_ne_zero.mpr h
    · intro d hd
      exact Nat.digits_lt_base (by norm_num) (List.mem_reverse.mp hd)
    · rw [foldl_reverse_ofDigits, Nat.ofDigits_digits]

theorem parseVal_succ (f : Nat) :
    parseVal (f + 1) = parseValBody (parseVal f) (parseArrRest f) (parseObjRest f) := rfl

theorem parseArrRest_succ (f : Nat) :
    parseArrRest (f + 1) = parseArrRestBody (parseVal f) (parseArrRest f) := rfl

theorem parseObjRest_succ (f : Nat) :
    parseObjRest (f + 1) = parseObjRestBody (parseVal f) (parseObjRest f) := rfl

theorem parseVal_natChars (f m : Nat) (rest : List Char)
    (hrest : headNotDigit rest = true) :
    parseVal (f + 1) (natChars m ++ rest) = some (Json.num (m : Int), rest) := by
  obtain ⟨ds, hmap, hne, hlt, hfold⟩ := natChars_decomp m
  have hp : parseNumPos (natChars m ++ rest) = some (m, rest) :=
    parseNumPos_natChars m rest hrest
  match ds, hne with
  | d :: ds2, _ =>
    have hd := hlt d (by simp)
    obtain ⟨hn, ht, hf2, hq, hbk, hbc, hm, _, _⟩ := digitChar_ne d hd
    rw [hmap] at hp ⊢
    simp only [List.map_cons, List.cons_append] at hp ⊢
    rw [parseVal_succ]
    simp [parseValBody, hn, ht, hf2, hq, hbk, hbc, hm, digitChar_isDigit d hd, hp]

theorem parse_chars_sound (fuel : Nat) :
    (∀ j rest, Fj j ≤ fuel → headNotDigit rest = true →
      parseVal fuel (Json.chars j ++ rest) = some (j, rest)) ∧
    (∀ js rest, FjL js + 1 ≤ fuel →
      parseArrRest fuel (charsTail js ++ (']' :: rest)) = some (js, rest)) ∧
    (∀ fs rest, FjF fs + 1 ≤ fuel →
      parseObjRest fuel (charsFieldsTail fs ++ ('}' :: rest)) = some (fs, rest)) := by
  induction fuel with
  | zero =>
    refine ⟨fun j rest hfj _ => absurd hfj (by have := Fj_pos j; omega),
            fun js rest hfl => by omega,
            fun fs rest hff => by omega⟩
  | succ f ih =>
    obtain ⟨ihV, ihA, ihO⟩ := ih
    refine ⟨?_, ?_, ?_⟩
    · intro j rest hfj hrest
      match j with
      | .null =>
        simp only [Json.chars, charsNull, List.cons_append, List.nil_append]
        rw [parseVal_succ]; simp [parseValBody]
      | .bool true =>
        simp only [Json.chars, charsTrue, List.cons_append, List.nil_append]
        rw [parseVal_succ]; simp [parseValBody]
      | .bool false =>
        simp only [Json.chars, charsFalse, List.cons_append, List.nil_append]
        rw [parseVal_succ]; simp [parseValBody]
      | .num n =>
        rw [show Json.chars (Json.num n) = intChars n from rfl]
        rcases Int.lt_or_le n 0 with hneg | hpos
        · rw [intChars, if_pos hneg]
          simp only [List.cons_append]
          rw [parseVal_succ]
          have hp := parseNumPos_natChars n.natAbs rest hrest
          simp only [parseValBody, hp]
          simp [abs_of_neg hneg]
        · rw [intChars, if_neg (by omega)]
          have := parseVal_natChars f n.toNat rest hrest
          rw [this]
          have : ((n.toNat : Nat) : Int) = n := by omega
          simp [this]
      | .str s =>
        simp only [Json.chars, List.cons_append, List.append_assoc,
          List.singleton_append]
        rw [parseVal_succ]
        simp [parseValBody, parseStrChars_escStr]
      | .arr [] =>
        simp only [Json.chars, List.cons_append, List.nil_append]
        rw [parseVal_succ]; simp [parseValBody]
      | .arr (x :: xs) =>
        simp only [Json.chars, List.cons_append, List.append_assoc]
        rcases hx : Json.chars x with _ | ⟨c0, cs0⟩
        · exact absurd hx (chars_ne_nil x)
        · have hc0 : c0 ≠ ']' := chars_head_ne_rbrack x c0 cs0 hx
          simp only [Fj] at hfj
          have hv := ihV x (charsTail xs ++ (']' :: rest)) (by omega)
            (headNotDigit_charsTail xs rest)
          have ha := ihA xs rest (by omega)
          rw [hx] at hv
          simp only [List.cons_append, List.append_assoc] at hv ⊢
          rw [parseVal_succ]
          simp [parseValBody, hc0, hv, ha]
      | .obj [] =>
        simp only [Json.chars, List.cons_append, List.nil_append]
        rw [parseVal_succ]; simp [parseValBody]
      | .obj ((k, v) :: fs) =>
        simp only [Json.chars, charsField, List.cons_append, List.append_assoc]
        simp only [Fj] at hfj
        have hv := ihV v (charsFieldsTail fs ++ ('}' :: rest)) (by omega)
          (headNotDigit_charsFieldsTail fs rest)
        have ho := ihO fs rest (by omega)
        have hs := parseStrChars_escStr k.data
          (':' :: (Json.chars v ++ (charsFieldsTail fs ++ ('}' :: rest))))
        rw [parseVal_succ]
        simp only [List.cons_append, List.append_assoc] at hs hv ⊢
        simp [parseValBody, hs, hv, ho]
    · intro js rest hfl
      cases js with
      | nil =>
        rw [charsTail, List.nil_append, parseArrRest_succ]
        simp [parseArrRestBody]
      | cons x xs =>
        simp only [charsTail, List.cons_append, List.append_assoc]
        simp only [FjL] at hfl
        have hv := ihV x (charsTail xs ++ (']' :: rest)) (by omega)
          (headNotDigit_charsTail xs rest)
        have ha := ihA xs rest (by omega)
        rw [parseArrRest_succ]
        simp only [List.append_assoc] at hv ⊢
        simp [parseArrRestBody, hv, ha]
    · intro fs rest hff
      cases fs with
      | nil =>
        rw [charsFieldsTail, List.nil_append, parseObjRest_succ]
        simp [parseObjRestBody]
      | cons f0 fs =>
        obtain ⟨k, v⟩ := f0
        simp only [charsFieldsTail, charsField, List.cons_append, List.append_assoc]
        simp only [FjF] at hff
        have hv := ihV v (charsFieldsTail fs ++ ('}' :: rest)) (by omega)
          (headNotDigit_charsFieldsTail fs rest)
        have ho := ihO fs rest (by omega)
        have hs := parseStrChars_escStr k.data
          (':' :: (Json.chars v ++ (charsFieldsTail fs ++ ('}' :: rest))))
        rw [parseObjRest_succ]
        simp only [List.cons_append, List.append_assoc] at hs hv ⊢
        simp [parseObjRestBody, hs, hv, ho]

mutual

theorem Fj_le_len (j : Json) : Fj j ≤ (Json.chars j).length := by
  match j with
  | .null => simp [Fj, Json.chars, charsNull]
  | .bool true => simp [Fj, Json.chars, charsTrue]
  | .bool false => simp [Fj, Json.chars, charsFalse]
  | .str s => simp [Fj, Json.chars]
  | .arr [] => simp [Fj, Json.chars]
  | .obj [] => simp [Fj, Json.chars]
  | .num n =>
    have h1 := intChars_ne_nil n
    have h2 : 0 < (intChars n).length := List.length_pos.mpr h1
    rw [show Json.chars (Json.num n) = intChars n from rfl]
    simp only [Fj]
    omega
  | .arr (x :: xs) =>
    have h1 := Fj_le_len x
    have h2 := FjL_le_len xs
    simp only [Fj, Json.chars, List.length_cons, List.length_append]
    omega
  | .obj ((k, v) :: fs) =>
    have h1 := Fj_le_len v
    have h2 := FjF_le_len fs
    simp only [Fj, Json.chars, charsField, List.length_cons, List.length_append]
    omega

theorem FjL_le_len (js : List Json) : FjL js ≤ (charsTail js).length := by
  match js with
  | [] => simp [FjL, charsTail]
  | x :: xs =>
    have h1 := Fj_le_len x
    have h2 := FjL_le_len xs
    simp only [FjL, charsTail, List.length_cons, List.length_append]
    omega

theorem FjF_le_len (fs : List (String × Json)) : FjF fs ≤ (charsFieldsTail fs).length := by
  match fs with
  | [] => simp [FjF, charsFieldsTail]
  | (k, v) :: fs =>
    have h1 := Fj_le_len v
    have h2 := FjF_le_len fs
    simp only [FjF, charsFieldsTail, charsField, List.length_cons, List.length_append]
    omega

end

/-- Completeness of the fueled parser on serialized values. -/
theorem parseVal_chars (j : Json) (fuel : Nat) (rest : List Char)
    (hfuel : Fj j ≤ fuel) (hrest : headNotDigit rest = true) :
    parseVal fuel (Json.chars j ++ rest) = some (j, rest) :=
  (parse_chars_sound fuel).1 j rest hfuel hrest

/-- The parser inverts the serializer. -/
theorem parse_stringify (j : Json) : Json.parse (Json.stringify j) = some j := by
  have hdata : (Json.stringify j).data = Json.chars j := rfl
  have hfuel : Fj j ≤ (Json.chars j).length + 1 := by
    have := Fj_le_len j
    omega
  have h := parseVal_chars j ((Json.chars j).length + 1) [] hfuel rfl
  rw [List.append_nil] at h
  rw [Json.parse, hdata, h]

/-! ## JS `Map` association-list lemmas -/

theorem mapGet_set_self {α : Type} (m : List (String × α)) (k : String) (v : α) :
    mapGet (mapSet m k v) k = some v := by
  induction m with
  | nil => simp [mapSet, mapGet]
  | cons p rest ih =>
    by_cases h : p.1 = k
    · simp [mapSet, h, mapGet]
    · simp [mapSet, h, mapGet, ih]

theorem mapGet_set_ne {α : Type} (m : List (String × α)) (k k2 : String) (v : α)
    (h : k ≠ k2) : mapGet (mapSet m k v) k2 = mapGet m k2 := by
  induction m with
  | nil => simp [mapSet, mapGet, h]
  | cons p rest ih =>
    by_cases hp : p.1 = k
    · simp [mapSet, hp, mapGet, h]
    · by_cases hp2 : p.1 = k2
      · simp [mapSet, hp, mapGet, hp2, h, Ne.symm h]
      · simp [mapSet, hp, mapGet, hp2, ih]

theorem mapGet_delete_self {α : Type} (m : List (String × α)) (k : String) :
    mapGet (mapDelete m k) k = none := by
  induction m with
  | nil => simp [mapDelete, mapGet]
  | cons p rest ih =>
    by_cases h : p.1 = k
    · simp [mapDelete, h, ih]
    · simp [mapDelete, h, mapGet, ih]

theorem mapGet_delete_ne {α : Type} (m : List (String × α)) (k k2 : String)
    (h : k ≠ k2) : mapGet (mapDelete m k) k2 = mapGet m k2 := by
  induction m with
  | nil => simp [mapDelete]
  | cons p rest ih =>
    by_cases hp : p.1 = k
    · have h2 : p.1 ≠ k2 := by rw [hp]; exact h
      simp [mapDelete, hp, mapGet, h2, ih, h]
    · by_cases hp2 : p.1 = k2
      · simp [mapDelete, hp, mapGet, hp2, h, Ne.symm h]
      · simp [mapDelete, hp, mapGet, hp2, ih]

theorem mapDelete_set_self {α : Type} (m : List (String × α)) (k : String) (v : α) :
    mapDelete (mapSet m k v) k = mapDelete m k := by
  induction m with
  | nil => simp [mapSet, mapDelete]
  | cons p rest ih =>
    by_cases h : p.1 = k
    · simp [mapSet, h, mapDelete]
    · simp [mapSet, h, mapDelete, ih]

theorem mapDelete_set_ne {α : Type} (m : List (String × α)) (k k2 : String) (v : α)
    (h : k ≠ k2) : mapDelete (mapSet m k v) k2 = mapSet (mapDelete m k2) k v := by
  induction m with
  | nil => simp [mapSet, mapDelete, h, Ne.symm h]
  | cons p rest ih =>
    by_cases hp : p.1 = k
    · have h2 : p.1 ≠ k2 := by rw [hp]; exact h
      simp [mapSet, hp, mapDelete, h2, h, Ne.symm h, ih]
    · by_cases hp2 : p.1 = k2
      · simp [mapSet, hp, mapDelete, hp2, h, Ne.symm h, ih]
      · simp [mapSet, hp, mapDelete, hp2, ih]

theorem mapDelete_of_get_none {α : Type} (m : List (String × α)) (k : String)
    (h : mapGet m k = none) : mapDelete m k = m := by
  induction m with
  | nil => simp [mapDelete]
  | cons p rest ih =>
    by_cases hp : p.1 = k
    · simp [mapGet, hp] at h
    · simp [mapGet, hp] at h
      simp [mapDelete, hp, ih h]

theorem mapGet_mem {α : Type} (m : List (String × α)) (k : String) (v : α)
    (h : mapGet m k = some v) : ∃ p ∈ m, p.1 = k ∧ p.2 = v := by
  induction m with
  | nil => simp [mapGet] at h
  | cons p rest ih =>
    by_cases hp : p.1 = k
    · simp [mapGet, hp] at h
      exact ⟨p, by simp, hp, h⟩
    · simp [mapGet, hp] at h
      obtain ⟨q, hq, hq1, hq2⟩ := ih h
      exact ⟨q, by simp [hq], hq1, hq2⟩

theorem mapDelete_mem {α : Type} (m : List (String × α)) (k : String) (p : String × α)
    (h : p ∈ mapDelete m k) : p ∈ m := by
  induction m with
  | nil => simp [mapDelete] at h
  | cons q rest ih =>
    by_cases hq : q.1 = k
    · simp [mapDelete, hq] at h
      exact List.mem_cons_of_mem _ (ih h)
    · simp [mapDelete, hq] at h
      rcases h with h | h
      · simp [h]
      · exact List.mem_cons_of_mem _ (ih h)

theorem findKeyWithValue_set_of_absent (m : List (String × RequestId)) (k : String)
    (target : RequestId) (hall : ∀ p ∈ m, p.2 ≠ target) :
    findKeyWithValue (mapSet m k target) target = some k := by
  induction m with
  | nil => simp [mapSet, findKeyWithValue]
  | cons p rest ih =>
    by_cases hp : p.1 = k
    · simp [mapSet, hp, findKeyWithValue]
    · have hv : p.2 ≠ target := hall p (by simp)
      simp [mapSet, hp, findKeyWithValue, hv]
      exact ih (fun q hq => hall q (by simp [hq]))

theorem findSessionWithPending_set (sessions : List (String × ClientSession))
    (c : String) (s1 : ClientSession) (eid : String) (oid : RequestId)
    (hall : ∀ p ∈ sessions, mapGet p.2.pendingRequests eid = none)
    (hs1 : mapGet s1.pendingRequests eid = some oid) :
    findSessionWithPending (mapSet sessions c s1) eid = some (c, oid) := by
  induction sessions with
  | nil => simp [mapSet, findSessionWithPending, hs1]
  | cons p rest ih =>
    obtain ⟨k0, s0⟩ := p
    by_cases hp : k0 = c
    · simp only [mapSet, hp, if_pos rfl, findSessionWithPending, hs1]
    · have h0 : mapGet s0.pendingRequests eid = none := hall (k0, s0) (by simp)
      simp only [mapSet, if_neg hp, findSessionWithPending, h0]
      exact ih (fun q hq => hall q (by simp [hq]))

theorem findSessionForToken_set (sessions : List (String × ClientSession))
    (c : String) (s1 : ClientSession) (token : String) (v : RequestId)
    (hall : ∀ p ∈ sessions, mapGet p.2.pendingRequests token = none)
    (hs1 : mapGet s1.pendingRequests token = some v) :
    findSessionForToken (mapSet sessions c s1) token = some (c, s1, v) := by
  induction sessions with
  | nil => simp [mapSet, findSessionForToken, hs1]
  | cons p rest ih =>
    obtain ⟨k0, s0⟩ := p
    by_cases hp : k0 = c
    · simp only [mapSet, hp, if_pos rfl, findSessionForToken, hs1]
    · have h0 : mapGet s0.pendingRequests token = none := hall (k0, s0) (by simp)
      simp only [mapSet, if_neg hp, findSessionForToken, h0]
      exact ih (fun q hq => hall q (by simp [hq]))

/-! ## Tag lookup helpers -/

theorem getETag_createResponseTags (c eid : String) (ts : List (List String)) :
    getNostrEventTag (createResponseTags c eid ++ ts) "e" = some eid := rfl

theorem getETag_createResponseTags' (c eid : String) :
    getNostrEventTag (createResponseTags c eid) "e" = some eid := rfl

/-! ## Claim C2 — codec round-trip -/

/-- C2: For every MCP message M, kind K, and tag list T, decoding the
event produced by encoding (`nostrEventToMcpMessage` applied to the result
of `mcpToNostrEvent`) yields M again; the produced event's tag list equals
T exactly, with no tags added or removed, and its content is the JSON
serialization of M. -/
theorem claim_C2_codec_roundtrip (m : Json) (pubkey : String) (kind : Nat)
    (tags : List (List String)) (now : Nat) (id sig : String) :
    nostrEventToMcpMessage
        (finalizeEventWith (mcpToNostrEvent m pubkey kind tags now) id sig) = some m ∧
    (mcpToNostrEvent m pubkey kind tags now).tags = tags ∧
    (mcpToNostrEvent m pubkey kind tags now).content = Json.stringify m := by
  refine ⟨?_, rfl, rfl⟩
  simp [nostrEventToMcpMessage, finalizeEventWith, mcpToNostrEvent, parse_stringify]

/-! ## Claim C1 — id overwrite, id restoration, `e` tag -/

theorem handleIncomingRequest_pending_eid (s1 : ClientSession) (eid : String)
    (req : JSONRPCRequest)
    (htok : ∀ tok, progressTokenOf req.params = some tok → jsToString tok ≠ eid) :
    mapGet (handleIncomingRequest s1 eid req).1.pendingRequests eid = some req.id := by
  simp only [handleIncomingRequest]
  rcases hcase : progressTokenOf req.params with _ | tok
  · simp [mapGet_set_self]
  · by_cases htr : jsTruthy tok = true
    · have hne := htok tok hcase
      simp [htr, mapGet_set_ne _ _ _ _ hne, mapGet_set_self]
    · simp only [Bool.not_eq_true] at htr
      simp [htr, mapGet_set_self]

/-- C1: For every inbound request from a remote client, the server
transport delivers to the local MCP server a request whose JSON-RPC id
equals the Nostr event id of the carrier event, and when the local
server's response with that id is sent back, the response's JSON-RPC id
is restored to the original id the remote client used, and the published
response event carries an `e` tag equal to that event id. -/
theorem claim_C1_id_correlation (st : ServerState) (c eid : String)
    (id : RequestId) (method : String) (params : Option Json)
    (enc : Bool) (now : Int) (payload : RespPayload)
    (hblock : blockedByAllowlist st.allowedPublicKeys c = false)
    (hc : c ≠ "") (hann : eid ≠ "announcement")
    (hfresh : ∀ p ∈ st.clientSessions, mapGet p.2.pendingRequests eid = none)
    (htok : ∀ tok, progressTokenOf params = some tok → jsToString tok ≠ eid) :
    (authorizeAndProcessEvent st c eid
        (some (McpMessage.request id method params)) enc now).2
      = some (McpMessage.request (RequestId.str eid) method params) ∧
    ∃ st2 tags encFlag,
      handleResponse
          (authorizeAndProcessEvent st c eid
            (some (McpMessage.request id method params)) enc now).1
          (RequestId.str eid) payload
        = (st2, ServerSendResult.sent
            { recipient := c, kind := CTXVM_MESSAGES_KIND, tags := tags,
              message := respMessage id payload, encrypted := encFlag }) ∧
      getNostrEventTag tags "e" = some eid := by
  have hA : authorizeAndProcessEvent st c eid
      (some (McpMessage.request id method params)) enc now =
      ({ st with clientSessions := mapSet st.clientSessions c (handleIncomingRequest { getOrCreateClientSession st c now enc with lastActivity := now } eid ⟨id, method, params⟩).1 },
       some (McpMessage.request (RequestId.str eid) method params)) := by
    simp [authorizeAndProcessEvent, hblock, handleIncomingRequest]
  refine ⟨by rw [hA], ?_⟩
  rw [hA]
  set s2 := (handleIncomingRequest
      { getOrCreateClientSession st c now enc with lastActivity := now }
      eid ⟨id, method, params⟩).1 with hs2
  have hpend : mapGet s2.pendingRequests eid = some id := by
    rw [hs2]
    exact handleIncomingRequest_pending_eid _ _ ⟨id, method, params⟩ htok
  have hfind : findSessionWithPending (mapSet st.clientSessions c s2) eid
      = some (c, id) :=
    findSessionWithPending_set st.clientSessions c s2 eid id hfresh hpend
  have hget2 : mapGet (mapSet st.clientSessions c s2) c = some s2 :=
    mapGet_set_self st.clientSessions c s2
  rw [handleResponse.eq_def]
  rw [if_neg (by simp [hann])]
  simp only [hfind, hget2, if_neg hc]
  refine ⟨_, _, _, rfl, ?_⟩
  by_cases hinit : ((match payload with
      | .result r => isInitializeResult r
      | .rpcError _ => false) && s2.isEncrypted) = true
  · simp only [hinit, if_pos rfl]
    exact getETag_createResponseTags c eid _
  · simp only [Bool.not_eq_true] at hinit
    simp only [hinit, Bool.false_eq_true, if_false]
    exact getETag_createResponseTags' c eid

/-- Witness for C1 at a concrete state and request. -/
theorem claim_C1_id_correlation_witness :
    (authorizeAndProcessEvent
        { clientSessions := []
          encryptionMode := EncryptionMode.optional
          serverInfo := ⟨none, none, none, none⟩
          allowedPublicKeys := none }
        "c1" "ev1" (some (McpMessage.request (RequestId.num 1) "tools/list" none))
        false 0).2
      = some (McpMessage.request (RequestId.str "ev1") "tools/list" none) ∧
    ∃ st2 tags encFlag,
      handleResponse
          (authorizeAndProcessEvent
            { clientSessions := []
              encryptionMode := EncryptionMode.optional
              serverInfo := ⟨none, none, none, none⟩
              allowedPublicKeys := none }
            "c1" "ev1" (some (McpMessage.request (RequestId.num 1) "tools/list" none))
            false 0).1
          (RequestId.str "ev1") (RespPayload.result Json.null)
        = (st2, ServerSendResult.sent
            { recipient := "c1", kind := CTXVM_MESSAGES_KIND, tags := tags,
              message := respMessage (RequestId.num 1) (RespPayload.result Json.null),
              encrypted := encFlag }) ∧
      getNostrEventTag tags "e" = some "ev1" :=
  claim_C1_id_correlation _ "c1" "ev1" (RequestId.num 1) "tools/list" none false 0
    (RespPayload.result Json.null) rfl (by decide) (by decide)
    (by intro p hp; simp at hp) (by intro tok h; simp [progressTokenOf] at h)

/-! ## Claim C3 — response encryption under OPTIONAL mode -/

/-- C3 (evaluation at the failing input): under OPTIONAL encryption
mode, `handleResponse` gift-wraps the response even though the client's
session has `isEncrypted = false` (its last inbound event was cleartext).
`shouldEncrypt` ignores `forceEncryption` for kind 25910 and encrypts
whenever the mode is not DISABLED, so the claimed cleartext kind-25910
response is never produced under OPTIONAL. -/
theorem claim_C3_optional_encrypts_cleartext_session :
    shouldEncrypt EncryptionMode.optional CTXVM_MESSAGES_KIND false = true ∧
    ∃ st2 pub,
      handleResponse
        { clientSessions := [("c1", ⟨true, false, 0, [("e1", RequestId.num 7)]⟩)]
          encryptionMode := EncryptionMode.optional
          serverInfo := ⟨none, none, none, none⟩
          allowedPublicKeys := none }
        (RequestId.str "e1") (RespPayload.result Json.null)
      = (st2, ServerSendResult.sent pub) ∧
      pub.encrypted = true ∧ pub.recipient = "c1" := by
  exact ⟨rfl, _, _, rfl, rfl, rfl⟩

/-! ## Claim C5 — progress token routing -/

/-- C5 (counterexample): a request carrying `params._meta.progressToken = 0`
has its token silently dropped (`if (progressToken)` is falsy for `0`), and
a subsequent `notifications/progress` with that token is broadcast to every
initialized session instead of being routed solely to the originating one. -/
theorem claim_C5_counterexample :
    (mapGet (handleIncomingRequest ⟨false, false, 0, []⟩ "e1"
        ⟨RequestId.num 7, "tools/call",
         some (Json.obj [("_meta", Json.obj [("progressToken", Json.num 0)])])⟩).1.pendingRequests
      "0" = none) ∧
    (∃ pubs, handleNotification
        (authorizeAndProcessEvent
          { clientSessions := [("c2", ⟨true, false, 0, []⟩)]
            encryptionMode := EncryptionMode.optional
            serverInfo := ⟨none, none, none, none⟩
            allowedPublicKeys := none }
          "c1" "e1"
          (some (McpMessage.request (RequestId.num 7) "tools/call"
            (some (Json.obj [("_meta", Json.obj [("progressToken", Json.num 0)])]))))
          false 0).1
        "notifications/progress"
        (some (Json.obj [("_meta", Json.obj [("progressToken", Json.num 0)])]))
      = NotifyOutcome.broadcast pubs ∧
      pubs.map OutboundPublish.recipient = ["c2"]) := by
  exact ⟨rfl, _, rfl, rfl⟩

theorem handleIncomingRequest_pending_tok (s1 : ClientSession) (eid : String)
    (req : JSONRPCRequest) (tok : Json)
    (htokv : progressTokenOf req.params = some tok) (htr : jsTruthy tok = true) :
    (handleIncomingRequest s1 eid req).1.pendingRequests =
      mapSet (mapSet s1.pendingRequests eid req.id) (jsToString tok) (RequestId.str eid) := by
  simp [handleIncomingRequest, htokv, htr]

theorem handleIncomingRequest_isEncrypted (s1 : ClientSession) (eid : String)
    (req : JSONRPCRequest) :
    (handleIncomingRequest s1 eid req).1.isEncrypted = s1.isEncrypted := rfl

theorem getOrCreate_isEncrypted (st : ServerState) (c : String) (now : Int) (enc : Bool) :
    (getOrCreateClientSession st c now enc).isEncrypted = enc := by
  unfold getOrCreateClientSession
  rcases h : mapGet st.clientSessions c with _ | s <;> simp

theorem getOrCreate_pending_sub (st : ServerState) (c : String) (now : Int) (enc : Bool)
    (q : String × RequestId)
    (hq : q ∈ (getOrCreateClientSession st c now enc).pendingRequests) :
    ∃ p ∈ st.clientSessions, q ∈ p.2.pendingRequests := by
  unfold getOrCreateClientSession at hq
  rcases h : mapGet st.clientSessions c with _ | s
  · rw [h] at hq; simp at hq
  · rw [h] at hq
    simp only at hq
    obtain ⟨p, hp, _, hp2⟩ := mapGet_mem _ _ _ h
    exact ⟨p, hp, by rw [hp2]; exact hq⟩

/-- C5 (amended): when an inbound request carries a *truthy*
`params._meta.progressToken` (JavaScript truthiness: not `0` and not the
empty string), the token is recorded in that session's pending map as
`String(token) → event id`; a subsequent `notifications/progress` carrying
that token is routed solely to the originating session — the outcome is a
single targeted send — tagged `p = client` and `e = event id`; and both the
token entry and the event-id entry are removed when the response is
emitted. -/
theorem claim_C5_amended_progress_routing (st : ServerState) (c eid : String)
    (id : RequestId) (method : String) (params nparams : Option Json) (tok : Json)
    (enc : Bool) (now : Int) (payload : RespPayload)
    (hblock : blockedByAllowlist st.allowedPublicKeys c = false)
    (hc : c ≠ "") (hann : eid ≠ "announcement")
    (htokv : progressTokenOf params = some tok)
    (hntokv : progressTokenOf nparams = some tok)
    (htr : jsTruthy tok = true)
    (htokne : jsToString tok ≠ eid)
    (hfresh : ∀ p ∈ st.clientSessions, mapGet p.2.pendingRequests eid = none)
    (hfreshTok : ∀ p ∈ st.clientSessions, mapGet p.2.pendingRequests (jsToString tok) = none)
    (hvalfresh : ∀ p ∈ st.clientSessions, ∀ q ∈ p.2.pendingRequests, q.2 ≠ RequestId.str eid) :
    (∃ s2, mapGet (authorizeAndProcessEvent st c eid
          (some (McpMessage.request id method params)) enc now).1.clientSessions c = some s2 ∧
        mapGet s2.pendingRequests (jsToString tok) = some (RequestId.str eid) ∧
        mapGet s2.pendingRequests eid = some id) ∧
    handleNotification (authorizeAndProcessEvent st c eid
        (some (McpMessage.request id method params)) enc now).1
        "notifications/progress" nparams
      = NotifyOutcome.progress
          { recipient := c, kind := CTXVM_MESSAGES_KIND,
            tags := [[NOSTR_TAGS_PUBKEY, c], [NOSTR_TAGS_EVENT_ID, eid]],
            message := McpMessage.notification "notifications/progress" nparams,
            encrypted := shouldEncrypt st.encryptionMode CTXVM_MESSAGES_KIND enc } ∧
    (∃ s3, mapGet (handleResponse (authorizeAndProcessEvent st c eid
          (some (McpMessage.request id method params)) enc now).1
          (RequestId.str eid) payload).1.clientSessions c = some s3 ∧
        mapGet s3.pendingRequests eid = none ∧
        mapGet s3.pendingRequests (jsToString tok) = none) := by
  have hA : authorizeAndProcessEvent st c eid
      (some (McpMessage.request id method params)) enc now =
      ({ st with clientSessions := mapSet st.clientSessions c (handleIncomingRequest { getOrCreateClientSession st c now enc with lastActivity := now } eid ⟨id, method, params⟩).1 },
       some (McpMessage.request (RequestId.str eid) method params)) := by
    simp [authorizeAndProcessEvent, hblock, handleIncomingRequest]
  rw [hA]
  set session1 : ClientSession :=
    { getOrCreateClientSession st c now enc with lastActivity := now } with hsession1
  set s2 := (handleIncomingRequest session1 eid ⟨id, method, params⟩).1 with hs2
  have hpendfull : s2.pendingRequests =
      mapSet (mapSet session1.pendingRequests eid id) (jsToString tok) (RequestId.str eid) :=
    handleIncomingRequest_pending_tok session1 eid ⟨id, method, params⟩ tok htokv htr
  have hpendTok : mapGet s2.pendingRequests (jsToString tok) = some (RequestId.str eid) := by
    rw [hpendfull]; exact mapGet_set_self _ _ _
  have hpendEid : mapGet s2.pendingRequests eid = some id := by
    rw [hpendfull, mapGet_set_ne _ _ _ _ htokne]
    exact mapGet_set_self _ _ _
  have hencS2 : s2.isEncrypted = enc := by
    rw [hs2, handleIncomingRequest_isEncrypted, hsession1]
    exact getOrCreate_isEncrypted st c now enc
  have hget2 : mapGet (mapSet st.clientSessions c s2) c = some s2 :=
    mapGet_set_self st.clientSessions c s2
  refine ⟨⟨s2, hget2, hpendTok, hpendEid⟩, ?_, ?_⟩
  · -- progress routing
    have hfindTok : findSessionForToken (mapSet st.clientSessions c s2) (jsToString tok)
        = some (c, s2, RequestId.str eid) :=
      findSessionForToken_set st.clientSessions c s2 (jsToString tok)
        (RequestId.str eid) hfreshTok hpendTok
    rw [handleNotification]
    simp only [hntokv, htr, eq_self_iff_true, true_and, and_self, and_true, if_true]
    simp only [hfindTok, sendNotificationTo, hget2]
    simp [sendMcpMessage, createRecipientTags, ridToString, hencS2]
  · -- cleanup on response
    have hfind : findSessionWithPending (mapSet st.clientSessions c s2) eid
        = some (c, id) :=
      findSessionWithPending_set st.clientSessions c s2 eid id hfresh hpendEid
    have habsent : ∀ q ∈ mapDelete session1.pendingRequests eid, q.2 ≠ RequestId.str eid := by
      intro q hq
      have hq2 := mapDelete_mem _ _ _ hq
      have : q ∈ (getOrCreateClientSession st c now enc).pendingRequests := hq2
      obtain ⟨p, hp, hpq⟩ := getOrCreate_pending_sub st c now enc q this
      exact hvalfresh p hp q hpq
    have hp1 : mapDelete s2.pendingRequests eid =
        mapSet (mapDelete session1.pendingRequests eid) (jsToString tok) (RequestId.str eid) := by
      rw [hpendfull, mapDelete_set_ne _ _ _ _ htokne, mapDelete_set_self]
    have hfk : findKeyWithValue (mapDelete s2.pendingRequests eid) (RequestId.str eid)
        = some (jsToString tok) := by
      rw [hp1]
      exact findKeyWithValue_set_of_absent _ _ _ habsent
    rw [handleResponse.eq_def]
    rw [if_neg (by simp [hann])]
    simp only [hfind, hget2, if_neg hc, hfk]
    refine ⟨_, mapGet_set_self _ _ _, ?_, ?_⟩
    · simp only [hp1, mapDelete_set_self]
      rw [mapGet_delete_ne _ _ _ htokne]
      exact mapGet_delete_self _ _
    · simp only [hp1, mapDelete_set_self]
      exact mapGet_delete_self _ _

/-- Witness for the amended C5 at a concrete two-session state and a
string token `"t-42"`. -/
theorem claim_C5_amended_witness :
    (∃ s2, mapGet (authorizeAndProcessEvent
          { clientSessions := [("c2", ⟨true, false, 0, []⟩)]
            encryptionMode := EncryptionMode.optional
            serverInfo := ⟨none, none, none, none⟩
            allowedPublicKeys := none }
          "c1" "e1"
          (some (McpMessage.request (RequestId.num 7) "tools/call"
            (some (Json.obj [("_meta", Json.obj [("progressToken", Json.str "t-42")])]))))
          false 0).1.clientSessions "c1" = some s2 ∧
        mapGet s2.pendingRequests (jsToString (Json.str "t-42")) = some (RequestId.str "e1") ∧
        mapGet s2.pendingRequests "e1" = some (RequestId.num 7)) ∧
    handleNotification (authorizeAndProcessEvent
        { clientSessions := [("c2", ⟨true, false, 0, []⟩)]
          encryptionMode := EncryptionMode.optional
          serverInfo := ⟨none, none, none, none⟩
          allowedPublicKeys := none }
        "c1" "e1"
        (some (McpMessage.request (RequestId.num 7) "tools/call"
          (some (Json.obj [("_meta", Json.obj [("progressToken", Json.str "t-42")])]))))
        false 0).1
        "notifications/progress"
        (some (Json.obj [("_meta", Json.obj [("progressToken", Json.str "t-42")])]))
      = NotifyOutcome.progress
          { recipient := "c1", kind := CTXVM_MESSAGES_KIND,
            tags := [[NOSTR_TAGS_PUBKEY, "c1"], [NOSTR_TAGS_EVENT_ID, "e1"]],
            message := McpMessage.notification "notifications/progress"
              (some (Json.obj [("_meta", Json.obj [("progressToken", Json.str "t-42")])])),
            encrypted := shouldEncrypt EncryptionMode.optional CTXVM_MESSAGES_KIND false } ∧
    (∃ s3, mapGet (handleResponse (authorizeAndProcessEvent
          { clientSessions := [("c2", ⟨true, false, 0, []⟩)]
            encryptionMode := EncryptionMode.optional
            serverInfo := ⟨none, none, none, none⟩
            allowedPublicKeys := none }
          "c1" "e1"
          (some (McpMessage.request (RequestId.num 7) "tools/call"
            (some (Json.obj [("_meta", Json.obj [("progressToken", Json.str "t-42")])]))))
          false 0).1
          (RequestId.str "e1") (RespPayload.result Json.null)).1.clientSessions "c1" = some s3 ∧
        mapGet s3.pendingRequests "e1" = none ∧
        mapGet s3.pendingRequests (jsToString (Json.str "t-42")) = none) :=
  claim_C5_amended_progress_routing _ "c1" "e1" (RequestId.num 7) "tools/call"
    _ _ (Json.str "t-42") false 0 (RespPayload.result Json.null)
    rfl (by decide) (by decide) rfl rfl rfl (by decide)
    (by decide) (by decide) (by decide)

/-! ## Claim C4 — inbound gift wraps under DISABLED -/

/-- C4 (counterexample): with encryption mode DISABLED, the client
transport still decrypts an inbound gift wrap and delivers the inner
message (and consumes the pending id) — the mode is never consulted on
this path. -/
theorem claim_C4_counterexample :
    (processClientIncoming ⟨"s", EncryptionMode.disabled, ["e1"]⟩
        (InboundEvent.wrapped ⟨"x", "s", [["p", "c"], ["e", "e1"]],
          some (McpMessage.response (RequestId.str "e1") Json.null)⟩)).2
      = ClientOutcome.delivered (some (McpMessage.response (RequestId.str "e1") Json.null)) ∧
    (processClientIncoming ⟨"s", EncryptionMode.disabled, ["e1"]⟩
        (InboundEvent.wrapped ⟨"x", "s", [["p", "c"], ["e", "e1"]],
          some (McpMessage.response (RequestId.str "e1") Json.null)⟩)).1.pendingRequestIds
      = [] := ⟨rfl, rfl⟩

/-- C4 (amended): under DISABLED the *server* transport drops an
inbound gift-wrapped event without delivering anything or touching any
session; the *client* transport performs no mode check at all — it
processes the decrypted inner event exactly as it would a cleartext
event. -/
theorem claim_C4_amended_disabled_policy :
    (∀ (st : ServerState) (inner : EventView) (now : Int),
       st.encryptionMode = EncryptionMode.disabled →
       processIncomingEvent st (InboundEvent.wrapped inner) now = (st, none)) ∧
    (∀ (cst : ClientState) (inner : EventView),
       processClientIncoming cst (InboundEvent.wrapped inner)
         = handleRegularMessage cst inner) := by
  refine ⟨fun st inner now h => ?_, fun cst inner => rfl⟩
  rw [processIncomingEvent]
  simp [h]

/-- Witness for the amended C4 at a concrete server state. -/
theorem claim_C4_amended_witness :
    processIncomingEvent
        { clientSessions := []
          encryptionMode := EncryptionMode.disabled
          serverInfo := ⟨none, none, none, none⟩
          allowedPublicKeys := none }
        (InboundEvent.wrapped ⟨"x", "c", [], none⟩) 0
      = ({ clientSessions := []
           encryptionMode := EncryptionMode.disabled
           serverInfo := ⟨none, none, none, none⟩
           allowedPublicKeys := none }, none) :=
  (claim_C4_amended_disabled_policy).1 _ _ 0 rfl

/-! ## Claim C10 — client pending-request id tracking -/

theorem handleRegularMessage_state (st : ClientState) (ev : EventView) :
    (handleRegularMessage st ev).1 =
      match getNostrEventTag ev.tags "e" with
      | some e =>
        if e = "" then st
        else if e ∈ st.pendingRequestIds then
          { st with pendingRequestIds := setDelete st.pendingRequestIds e }
        else st
      | none => st := by
  rw [handleRegularMessage]
  rcases getNostrEventTag ev.tags "e" with _ | e
  · rcases ev.content with _ | msg
    · rfl
    · by_cases h : isNotificationMessage msg = true <;> simp [h]
  · by_cases he : e = ""
    · simp only [he, if_pos rfl]
      rcases ev.content with _ | msg
      · rfl
      · by_cases h : isNotificationMessage msg = true <;> simp [h]
    · by_cases hm : e ∈ st.pendingRequestIds <;> simp [he, hm]

theorem processClientIncoming_mem (st : ClientState) (inb : InboundEvent) (x : String) :
    x ∈ (processClientIncoming st inb).1.pendingRequestIds ↔
      (x ∈ st.pendingRequestIds ∧ ¬(effectiveETag inb = some x ∧ x ≠ "")) := by
  have key : ∀ ev : EventView,
      (x ∈ (handleRegularMessage st ev).1.pendingRequestIds ↔
        (x ∈ st.pendingRequestIds ∧ ¬(getNostrEventTag ev.tags "e" = some x ∧ x ≠ ""))) := by
    intro ev
    rw [handleRegularMessage_state]
    rcases h : getNostrEventTag ev.tags "e" with _ | e
    · simp
    · dsimp only
      by_cases he : e = ""
      · subst he
        rw [if_pos rfl]
        constructor
        · intro hx
          refine ⟨hx, ?_⟩
          rintro ⟨h1, h2⟩
          rw [Option.some.injEq] at h1
          exact h2 h1.symm
        · exact fun hx => hx.1
      · by_cases hm : e ∈ st.pendingRequestIds
        · rw [if_neg he, if_pos hm]
          simp only [setDelete, List.mem_filter, decide_eq_true_eq]
          constructor
          · rintro ⟨hx, hne⟩
            refine ⟨hx, ?_⟩
            rintro ⟨h1, _⟩
            rw [Option.some.injEq] at h1
            exact hne h1.symm
          · rintro ⟨hx, hno⟩
            refine ⟨hx, fun hxe => ?_⟩
            exact hno ⟨by rw [hxe], by rw [hxe]; exact he⟩
        · rw [if_neg he, if_neg hm]
          constructor
          · intro hx
            refine ⟨hx, ?_⟩
            rintro ⟨h1, _⟩
            rw [Option.some.injEq] at h1
            exact hm (h1 ▸ hx)
          · exact fun hx => hx.1
  cases inb with
  | clear ev => exact key ev
  | wrapped inner => exact key inner

theorem processClientTrace_mem (st : ClientState) (trace : List InboundEvent) (x : String)
    (hx : x ∈ st.pendingRequestIds)
    (hno : ∀ inb ∈ trace, effectiveETag inb ≠ some x) :
    x ∈ (processClientTrace st trace).pendingRequestIds := by
  induction trace generalizing st with
  | nil => exact hx
  | cons inb rest ih =>
    rw [processClientTrace]
    apply ih
    · rw [processClientIncoming_mem]
      exact ⟨hx, by rintro ⟨h1, _⟩; exact hno inb (by simp) h1⟩
    · intro i hi
      exact hno i (by simp [hi])

/-- C10: on the client transport, `send(message)` inserts the
published event's id into `pendingRequestIds` for every outbound message —
notifications as well as requests — and an entry is removed only when an
inbound event arrives whose `e` tag equals it; consequently the ids of
sent notifications, which never receive responses, remain in the set until
the transport is discarded (`close` leaves the set untouched). -/
theorem claim_C10_pending_ids :
    (∀ (st : ClientState) (message : McpMessage) (eventId : String), eventId ≠ "" →
       (clientSend st message eventId).pendingRequestIds
         = setAdd st.pendingRequestIds eventId) ∧
    (∀ (st : ClientState) (inb : InboundEvent) (x : String),
       x ∈ (processClientIncoming st inb).1.pendingRequestIds ↔
         (x ∈ st.pendingRequestIds ∧ ¬(effectiveETag inb = some x ∧ x ≠ ""))) ∧
    (∀ (st : ClientState) (trace : List InboundEvent) (x : String),
       x ∈ st.pendingRequestIds → (∀ inb ∈ trace, effectiveETag inb ≠ some x) →
       x ∈ (processClientTrace st trace).pendingRequestIds) ∧
    (∀ st : ClientState, (clientClose st).pendingRequestIds = st.pendingRequestIds) := by
  refine ⟨fun st message eventId h => ?_, processClientIncoming_mem,
    processClientTrace_mem, fun st => rfl⟩
  simp [clientSend, h]

/-- Witness for C10: a sent notification's event id is inserted, and an
id survives a trace of inbound events that never reference it. -/
theorem claim_C10_pending_ids_witness :
    (clientSend ⟨"s", EncryptionMode.optional, ["a"]⟩
        (McpMessage.notification "notifications/initialized" none) "e1").pendingRequestIds
      = setAdd ["a"] "e1" ∧
    "a" ∈ (processClientTrace ⟨"s", EncryptionMode.optional, ["a"]⟩
        [InboundEvent.clear ⟨"x", "s", [["e", "b"]], none⟩]).pendingRequestIds := by
  constructor
  · exact (claim_C10_pending_ids).1 _ _ _ (by decide)
  · exact (claim_C10_pending_ids).2.2.1 _ _ _ (by decide) (by decide)

/-! ## Claim C6 — relay pool publish semantics -/

/-- C6 (counterexample): `publish` is `Promise.all` over the per-relay
outcomes, so it raises as soon as one relay rejects even though another
relay accepted — refuting "raises only when every relay rejected". -/
theorem claim_C6_counterexample :
    poolPublish [Except.ok (), Except.error "rejected"] = Except.error "rejected" ∧
    Except.ok () ∈ [Except.ok (), Except.error "rejected"] := by
  exact ⟨rfl, by simp⟩

/-- C6 (amended): `publish` resolves exactly when every relay accepted
the event, and raises (with the first rejection) as soon as any relay
rejects; a partial failure therefore causes `publish` to raise. -/
theorem claim_C6_amended_publish (rs : List (Except String Unit)) :
    poolPublish rs = Except.ok () ↔ ∀ r ∈ rs, r = Except.ok () := by
  induction rs with
  | nil => simp [poolPublish, promiseAll]
  | cons r rest ih =>
    match r with
    | Except.ok () =>
      simpa [poolPublish, promiseAll] using ih
    | Except.error e =>
      simp [poolPublish, promiseAll]

/-! ## Claim C9 — subscription replay on reconnect -/

/-- C9: after any relay disconnect followed by a successful reconnect,
every subscription that was active before the disconnect is re-issued with
the same filters (the success path replaces every closer via
`resubscribeAll`), so the set of active subscription filters after the
reconnect cycle is identical to the set before it — and no code path of
`handleDisconnectedRelay` ever changes any subscription's filters. -/
theorem claim_C9_subscription_replay :
    (∀ (st : PoolState) (url : String) (ok : Bool),
       (handleDisconnectedRelay st url ok).subscriptions.map Subscription.filters
         = st.subscriptions.map Subscription.filters) ∧
    (∀ (st : PoolState) (url : String) (rs : RelayState),
       mapGet st.relayStates url = some rs → rs.isReconnecting = false →
       rs.retryCount < maxRetries →
       (handleDisconnectedRelay st url true).subscriptions
         = resubscribeAll st.subscriptions) := by
  constructor
  · intro st url ok
    rw [handleDisconnectedRelay]
    rcases h : mapGet st.relayStates url with _ | rs
    · simp
    · by_cases h1 : rs.isReconnecting = true
      · simp [h1]
      · simp only [Bool.not_eq_true] at h1
        by_cases h2 : maxRetries ≤ rs.retryCount
        · simp [h1, h2]
        · rcases ok with _ | _
          · simp [h1, h2]
          · simp [h1, h2, resubscribeAll, List.map_map, Function.comp]
  · intro st url rs hget hrec hretry
    rw [handleDisconnectedRelay]
    simp [hget, hrec, Nat.not_le.mpr hretry]

/-- Witness for C9 at a concrete pool state. -/
theorem claim_C9_subscription_replay_witness :
    (handleDisconnectedRelay
        { relayStates := [("wss:r1", ⟨1000, 0, false⟩)]
          subscriptions := [⟨[⟨[25910, 1059], ["pk"], some 5⟩], 0⟩] }
        "wss:r1" true).subscriptions
      = resubscribeAll [⟨[⟨[25910, 1059], ["pk"], some 5⟩], 0⟩] :=
  (claim_C9_subscription_replay).2 _ "wss:r1" ⟨1000, 0, false⟩ rfl rfl (by decide)

/-! ## Claim C8 — gift wrap construction -/

/-- C8 (evaluation at the failing input): the kind-1059 gift wrap is
authored by the ephemeral key and carries exactly one `p` tag naming the
recipient, but its `created_at` is exactly `Math.floor(Date.now() / 1000)`
— the current second — with no jitter or randomization, contradicting the
claimed randomized timestamp. -/
theorem claim_C8_giftwrap_timestamp :
    encryptMessage "m" "r" "epk" (fun s => String.append "ct:" s) 1700000000123 =
      { kind := 1059, content := "ct:m", tags := [["p", "r"]],
        created_at := 1700000000, pubkey := "epk" } := by
  rfl

/-! ## Claim C7 — 1 MiB message size bound -/

theorem escStr_replicate (n : Nat) :
    escStr (List.replicate n 'a') = List.replicate n 'a' := by
  induction n with
  | zero => rfl
  | succ n ih => simp [List.replicate_succ, escStr, escChar, ih]

theorem utf8LenAux_append (xs ys : List Char) :
    utf8LenAux (xs ++ ys) = utf8LenAux xs + utf8LenAux ys := by
  induction xs with
  | nil => simp [utf8LenAux]
  | cons c rest ih => simp [utf8LenAux, ih]; omega

theorem utf8LenAux_replicate_a (n : Nat) :
    utf8LenAux (List.replicate n 'a') = n := by
  induction n with
  | zero => rfl
  | succ n ih =>
    rw [List.replicate_succ, utf8LenAux, ih,
      show ('a').utf8Size = 1 from rfl]
    omega

/-- C7 (evaluation at the failing input): a message whose serialized
size exceeds 1 MiB fails `validateMessageSize`, yet `mcpToNostrEvent`
still encodes it verbatim and `nostrEventToMcpMessage` still decodes it —
no size check exists on either the send or the receive path (the helper
is never invoked by any transport). -/
theorem claim_C7_size_limit_unenforced :
    validateMessageSize (Json.stringify (Json.str (String.mk
        (List.replicate (MAX_MESSAGE_SIZE + 1) 'a')))) = false ∧
    (mcpToNostrEvent (Json.str (String.mk (List.replicate (MAX_MESSAGE_SIZE + 1) 'a')))
        "pk" CTXVM_MESSAGES_KIND [] 0).content
      = Json.stringify (Json.str (String.mk (List.replicate (MAX_MESSAGE_SIZE + 1) 'a'))) ∧
    nostrEventToMcpMessage (finalizeEventWith
        (mcpToNostrEvent (Json.str (String.mk (List.replicate (MAX_MESSAGE_SIZE + 1) 'a')))
          "pk" CTXVM_MESSAGES_KIND [] 0) "id" "sig")
      = some (Json.str (String.mk (List.replicate (MAX_MESSAGE_SIZE + 1) 'a'))) := by
  refine ⟨?_, rfl, ?_⟩
  · have hchars0 : (Json.stringify (Json.str (String.mk
        (List.replicate (MAX_MESSAGE_SIZE + 1) 'a')))).data
        = '"' :: (escStr (List.replicate (MAX_MESSAGE_SIZE + 1) 'a') ++ ['"']) := rfl
    rw [escStr_replicate] at hchars0
    rw [validateMessageSize, utf8Len, hchars0]
    rw [utf8LenAux, utf8LenAux_append, utf8LenAux_replicate_a]
    have hq : ('"').utf8Size = 1 := rfl
    rw [hq]
    rw [show utf8LenAux ['"'] = 1 from rfl]
    simp only [decide_eq_false_iff_not]
    simp only [MAX_MESSAGE_SIZE]
    omega
  · have h := parse_stringify (Json.str (String.mk
      (List.replicate (MAX_MESSAGE_SIZE + 1) 'a')))
    rw [nostrEventToMcpMessage]
    exact h

end ContextVM
